import Mathlib

/-!
Verification development for the `astrbot_plugin_apis` plugin.

This file shallowly embeds the three core components of the repository:
* `core/request.py` — the multi-URL fetch pipeline (`RequestManager.request`,
  `RequestManager.get_data`) and the batch availability prober
  (`RequestManager.batch_test_apis`);
* `core/api_manager.py` — the endpoint registry and matching engine
  (`APIManager.add_api`, `APIManager.normalize_api_data`,
  `APIManager.match_api_by_name`);
* `main.py` — the fallback orchestrator (`APIsPlugin.call_api`).

HTTP traffic is abstracted as an environment `env : String → Option Params →
RespResult` mapping a URL and an optional query-parameter dict to either a
failure (identified by a string label standing for the Python exception) or a
response.  Python values flowing through the pipeline
(`Union[bytes, str, dict, None]` plus JSON scalars) are embedded as `PyVal`.
The helpers `extract_url`, `get_nested_value`, `dict_to_string` live in
`core/utils.py` and the local cache in `core/local.py`, neither of which is
part of the provided sources; they are either taken as function parameters or
modelled from the specification, as marked below.
-/

/-- Query parameters: a Python dict of parameter name to value. -/
abbrev Params := List (String × String)

/-- Embedded Python runtime values that flow through the fetch pipeline:
`bytes`, `str`, `dict`, `list`, numbers, booleans and `None`. -/
inductive PyVal where
  | str (s : String)
  | bytes (b : List Nat)
  | dict (fields : List (String × PyVal))
  | list (elems : List PyVal)
  | int (n : Int)
  | bool (b : Bool)
  | none
deriving Repr

/-- Prefix test on character lists (the building block of Python's
substring-containment operator `in`). -/
def prefChars : List Char → List Char → Bool
  | [], _ => true
  | _ :: _, [] => false
  | a :: as, b :: bs => a == b && prefChars as bs

/-- Auxiliary scan for `strContains`. -/
def containsFrom (needle : List Char) : List Char → Bool
  | [] => needle.isEmpty
  | c :: cs => prefChars needle (c :: cs) || containsFrom needle cs

/-- Python's `needle in hay` on strings: raw case-sensitive substring
containment (the empty string is contained in every string). -/
def strContains (hay needle : String) : Bool :=
  containsFrom needle.data hay.data

/-- Python's `str.lower()`, character by character. -/
def lowerStr (s : String) : String :=
  ⟨s.data.map Char.toLower⟩

/-- Python's `str.strip()`: drop whitespace from both ends. -/
def stripStr (s : String) : String :=
  ⟨((s.data.dropWhile Char.isWhitespace).reverse.dropWhile Char.isWhitespace).reverse⟩

/-- Python's `s.startswith(pat)`. -/
def strStartsWith (s pat : String) : Bool :=
  prefChars pat.data s.data

/-- An HTTP response as observed by `RequestManager.request`: the
`Content-Type` header and the body under each of the three decodings the code
may apply (`resp.json()`, `resp.text()`, `resp.read()`). -/
structure Resp where
  contentType : String
  jsonBody : PyVal
  textBody : String
  rawBody : List Nat

/-- Outcome of a single `session.get` on one URL: either an exception
(identified by a label) raised by the GET / status check, or a response. -/
inductive RespResult where
  | fail (e : String)
  | ok (r : Resp)

/-- Errors escaping the fetch pipeline: a propagated underlying exception
(`raise last_exc`), or the `RuntimeError` raised by `get_data` when an
indirection redownload completes without bytes (message carries the
discovered URL). -/
inductive PErr where
  | exc (e : String)
  | runtimeError (url : String)
deriving DecidableEq, Repr

/-- Content-type driven classification of a successful response, from
`RequestManager.request` (`core/request.py` lines 30–35): JSON when the
lowercased header contains `application/json`, trimmed text when it contains
`text/`, raw bytes otherwise. -/
def classifyResp (r : Resp) : PyVal :=
  let ct := lowerStr r.contentType
  if strContains ct "application/json" then r.jsonBody
  else if strContains ct "text/" then .str (stripStr r.textBody)
  else .bytes r.rawBody

/-- `RequestManager.request` (`core/request.py` lines 20–40): iterate the URL
list in order; on a per-URL exception record it as `last_exc` and continue; on
the first success return (`None` in test mode, the classified body otherwise);
after the loop re-raise `last_exc` when set, else fall through returning
`None`. -/
def requestGo (env : String → Option Params → RespResult)
    (params : Option Params) (testMode : Bool) :
    List String → Option String → Except PErr PyVal
  | [], Option.some e => .error (.exc e)
  | [], Option.none => .ok .none
  | u :: rest, _last =>
    match env u params with
    | .fail e => requestGo env params testMode rest (Option.some e)
    | .ok r => if testMode then .ok .none else .ok (classifyResp r)

/-- Entry point of the failover loop: `last_exc` starts out unset. -/
def request (env : String → Option Params → RespResult) (urls : List String)
    (params : Option Params) (testMode : Bool) : Except PErr PyVal :=
  requestGo env params testMode urls Option.none

/-- Modelled from the spec: `get_nested_value` from the missing
`core/utils.py` resolves a dotted path into a structured JSON value,
"supporting nested object keys and, where applicable, list indices"; an
unresolvable segment yields `None`. -/
def get_nested_value (v : PyVal) (target : String) : PyVal :=
  walk v (target.splitOn ".")
where
  walk : PyVal → List String → PyVal
    | v, [] => v
    | .dict fields, k :: rest =>
      match fields.lookup k with
      | Option.some v' => walk v' rest
      | Option.none => .none
    | .list elems, k :: rest =>
      match k.toNat? with
      | Option.some i => walk (elems.getD i .none) rest
      | Option.none => .none
    | _, _ :: _ => .none

/-- Rendering of a scalar used by `dict_to_string`. -/
def pyValText : PyVal → String
  | .str s => s
  | .int n => toString n
  | .bool b => toString b
  | .none => "None"
  | _ => ""

/-- Modelled from the spec: `dict_to_string` from the missing
`core/utils.py` renders a mapping "as a flat human-readable `key: value`
line-joined string". -/
def dict_to_string (fields : List (String × PyVal)) : String :=
  String.intercalate "\n" (fields.map (fun kv => kv.1 ++ ": " ++ pyValText kv.2))

/-- The indirection block of `RequestManager.get_data` (`core/request.py`
lines 53–60): when the fetched value is a string and the declared type is not
`"text"`, scan it for an embedded URL (`extract_url`, missing from the
sources, taken as the parameter `eu`); if one is found re-issue `request`
against the *same original* URL list (with no params), keep a bytes result,
and raise `RuntimeError` carrying the discovered URL otherwise. -/
def resolveIndirection (env : String → Option Params → RespResult)
    (eu : String → Option String) (urls : List String) (apiType : String)
    (data : PyVal) : Except PErr PyVal :=
  match data with
  | .str s =>
    if apiType ≠ "text" then
      match eu s with
      | Option.some url =>
        match request env urls Option.none false with
        | .ok (.bytes b) => .ok (.bytes b)
        | .ok _ => .error (.runtimeError url)
        | .error e => .error e
      | Option.none => .ok (.str s)
    else .ok (.str s)
  | d => .ok d

/-- The dict block of `RequestManager.get_data` (`core/request.py` lines
63–68): when the value is a dict and `target` is non-empty, extract the nested
value; render it via `dict_to_string` when it is itself a dict. -/
def resolveTarget (data : PyVal) (target : String) : PyVal :=
  match data with
  | .dict fields =>
    if target ≠ "" then
      match get_nested_value (.dict fields) target with
      | .dict nf => .str (dict_to_string nf)
      | nv => nv
    else .dict fields
  | d => d

/-- The HTML block of `RequestManager.get_data` (`core/request.py` lines
71–74): when the value is a string whose stripped form starts with an HTML
doctype, replace it with the visible text extracted by BeautifulSoup
(abstracted as the parameter `ht`). -/
def resolveHtml (ht : String → String) (data : PyVal) : PyVal :=
  match data with
  | .str s =>
    if strStartsWith (stripStr s) "<!DOCTYPE html>" then .str (ht s) else .str s
  | d => d

/-- The final pairing of `RequestManager.get_data` (`core/request.py` lines
76–79): `text = data if isinstance(data, str) else None`,
`byte = data if isinstance(data, bytes) else None`. -/
def finalize (d : PyVal) : Option String × Option (List Nat) :=
  ((match d with | .str s => Option.some s | _ => Option.none),
   (match d with | .bytes b => Option.some b | _ => Option.none))

/-- `RequestManager.get_data` (`core/request.py` lines 42–79): fetch, then the
indirection, dict-target, and HTML blocks in order, then the final pairing. -/
def get_data (env : String → Option Params → RespResult)
    (eu : String → Option String) (ht : String → String)
    (urls : List String) (params : Option Params)
    (apiType : String) (target : String) :
    Except PErr (Option String × Option (List Nat)) :=
  match request env urls params false with
  | .error e => .error e
  | .ok data =>
    match resolveIndirection env eu urls apiType data with
    | .error e => .error e
    | .ok data2 => .ok (finalize (resolveHtml ht (resolveTarget data2 target)))

/-- A raw endpoint field that may be either a single string or a list of
strings (the persisted catalog allows both for `keyword` and `url`). -/
inductive StrOrList where
  | str (s : String)
  | list (l : List String)
deriving DecidableEq, Repr

/-- A raw endpoint object as stored in the registry's JSON catalog; `none`
fields are absent keys (the code reads every field through `.get` with a
default, except `batch_test_apis` which indexes `url` directly). -/
structure RawApi where
  keyword : Option StrOrList := Option.none
  url : Option StrOrList := Option.none
  type : Option String := Option.none
  params : Option Params := Option.none
  target : Option String := Option.none
  fuzzy : Option Bool := Option.none
  priority : Option Int := Option.none
deriving DecidableEq, Repr

/-- The in-memory registry: Python's insertion-ordered dict from primary
keyword to raw endpoint object (`APIManager.apis`). -/
abbrev Registry := List (String × RawApi)

/-- `keywords = raw_api.get("keyword", [])`, then a bare string is wrapped
into a one-element list (`core/api_manager.py` lines 136–138). -/
def RawApi.keywordsList (a : RawApi) : List String :=
  match a.keyword with
  | Option.none => []
  | Option.some (.str s) => [s]
  | Option.some (.list l) => l

/-- `APIManager.ALLOWED_TYPES`. -/
def ALLOWED_TYPES : List String := ["text", "image", "video", "audio"]

/-- `APIManager.default_api_type`. -/
def default_api_type : String := "image"

/-- The normalized endpoint definition built by
`APIManager.normalize_api_data`. -/
structure NormApi where
  name : String
  urls : List String
  type : String
  params : Params
  target : String
  fuzzy : Bool
  priority : Int
deriving DecidableEq, Repr

/-- `APIManager.normalize_api_data` (`core/api_manager.py` lines 105–124):
look the name up (missing names yield the empty object), wrap a string `url`
into a one-element list, coerce an invalid or missing `type` to the default,
and default the remaining fields.  The Python `.get("params", {}) or {}`
collapses a falsy stored value to `{}`, which the `Option` default models.
The source returns a deep copy; values in this embedding are immutable. -/
def normalize_api_data (apis : Registry) (name : String) : NormApi :=
  let raw := (apis.lookup name).getD {}
  let urls := match raw.url.getD (.str "") with
    | .str s => [s]
    | .list l => l
  let t0 := raw.type.getD ""
  { name := name
    urls := urls
    type := if ALLOWED_TYPES.contains t0 then t0 else default_api_type
    params := raw.params.getD []
    target := raw.target.getD ""
    fuzzy := raw.fuzzy.getD false
    priority := raw.priority.getD 0 }

/-- The match-collecting loop of `APIManager.match_api_by_name`
(`core/api_manager.py` lines 133–150): for each registry entry in order,
exact match is list membership of the trigger in the keyword list, fuzzy
match requires the `fuzzy` flag and some keyword contained in the trigger;
matched entries contribute `(priority, key)`. -/
def collectMatches (apis : Registry) (msg : String) : List (Int × String) :=
  apis.filterMap (fun kv =>
    let kws := kv.2.keywordsList
    let matched :=
      kws.contains msg || (kv.2.fuzzy.getD false && kws.any (fun k => strContains msg k))
    if matched then Option.some (kv.2.priority.getD 0, kv.1) else Option.none)

/-- The comparison used to model `matches.sort(key=lambda x: x[0],
reverse=True)`: descending by priority; `mergeSort` is stable, like Python's
sort with `reverse=True`. -/
def prioGe (a b : Int × String) : Bool := decide (b.1 ≤ a.1)

/-- `APIManager.match_api_by_name` (`core/api_manager.py` lines 126–164):
collect matches, sort descending by priority (stably), filter the entries
tied at the top priority, and pick one of them; `random.choice` is modelled
by the index `pick`, reduced modulo the number of tied entries.  The chosen
key is normalized via `normalize_api_data`. -/
def match_api_by_name (apis : Registry) (msg : String) (pick : Nat) :
    Option NormApi :=
  match (collectMatches apis msg).mergeSort prioGe with
  | [] => Option.none
  | top :: rest =>
    let same := (top :: rest).filter (fun m => m.1 == top.1)
    let selected := same.getD (pick % same.length) top
    Option.some (normalize_api_data apis selected.2)

/-- Python dict assignment `d[k] = v` on an insertion-ordered association
list: overwrite in place when the key exists, append otherwise. -/
def dictInsert (k : String) (v : RawApi) : Registry → Registry
  | [] => [(k, v)]
  | kv :: rest =>
    if kv.1 = k then (k, v) :: rest else kv :: dictInsert k v rest

/-- The two components of registry state: the in-memory dict and the JSON
file written by `APIManager._save_data`. -/
structure RegState where
  apis : Registry
  disk : Registry
deriving DecidableEq, Repr

/-- Failures of `APIManager.add_api`: the logged-and-return path when the
computed name is empty (the spec's `InvalidDefinition`), and the `IndexError`
raised by `api_info.get("keyword", [""])[0]` on an empty keyword list. -/
inductive AddErr where
  | invalidDefinition
  | indexError
deriving DecidableEq, Repr

/-- The name computation of `APIManager.add_api` (`core/api_manager.py` line
68): first element when `keyword` is a list (raising `IndexError` when that
list is empty), the string itself when it is a string, `""` when absent. -/
def primaryName (info : RawApi) : Except AddErr String :=
  match info.keyword with
  | Option.some (.list []) => .error .indexError
  | Option.some (.list (k :: _)) => .ok k
  | Option.some (.str s) => .ok s
  | Option.none => .ok ""

/-- `APIManager.add_api` (`core/api_manager.py` lines 66–74): compute the
primary name; an empty name is logged and the call returns with the state
unchanged; otherwise the entry is inserted or overwritten under that name and
`_save_data` persists the whole registry. -/
def add_api (st : RegState) (info : RawApi) : RegState × Option AddErr :=
  match primaryName info with
  | .error e => (st, Option.some e)
  | .ok name =>
    if name = "" then (st, Option.some .invalidDefinition)
    else
      let apis2 := dictInsert name info st.apis
      ({ apis := apis2, disk := apis2 }, Option.none)

/-- Split a character list at the first occurrence of `://`, producing the
scheme and the remainder. -/
def splitScheme : List Char → Option (List Char × List Char)
  | [] => Option.none
  | ':' :: '/' :: '/' :: rest => Option.some ([], rest)
  | c :: rest =>
    match splitScheme rest with
    | Option.some (sch, after) => Option.some (c :: sch, after)
    | Option.none => Option.none

/-- `APIManager.extract_base_url` (`core/api_manager.py` lines 85–99):
`urlparse` reduced to scheme and netloc; when both are present the origin
`scheme://netloc` is returned, otherwise the input unchanged. -/
def extract_base_url (full : String) : String :=
  match splitScheme full.data with
  | Option.some (sch, after) =>
    let netloc := after.takeWhile (fun c => c ≠ '/')
    if sch ≠ [] && netloc ≠ [] then
      String.mk sch ++ "://" ++ String.mk netloc
    else full
  | Option.none => full

/-- A probe entry of `RequestManager.batch_test_apis`: one request address of
one API, with that API's name and default params. -/
structure Entry where
  apiName : String
  url : String
  params : Params
deriving DecidableEq, Repr

/-- The URL list of a raw endpoint as flattened by `batch_test_apis`
(`core/request.py` lines 90–91); the source indexes `api_data["url"]`
directly, so the theorems about the prober assume the `url` field present. -/
def urlsOfRaw (raw : RawApi) : List String :=
  match raw.url.getD (.str "") with
  | .str s => [s]
  | .list l => l

/-- Step 1 of `batch_test_apis` before grouping: every API's request
addresses as probe entries, in registry order. -/
def flatEntries (apis : Registry) : List Entry :=
  apis.flatMap (fun kv =>
    (urlsOfRaw kv.2).map (fun u =>
      { apiName := kv.1, url := u, params := kv.2.params.getD [] }))

/-- `site_to_entries[site].append(entry)` on an insertion-ordered
defaultdict. -/
def addToGroup (site : String) (e : Entry) :
    List (String × List Entry) → List (String × List Entry)
  | [] => [(site, [e])]
  | q :: rest =>
    if q.1 = site then (q.1, q.2 ++ [e]) :: rest else q :: addToGroup site e rest

/-- The per-origin queues built by `batch_test_apis` (`core/request.py` lines
87–100). -/
def buildQueues (apis : Registry) : List (String × List Entry) :=
  (flatEntries apis).foldl (fun qs e => addToGroup (extract_base_url e.url) e qs) []

/-- One probe: `request([url], params, test_mode=True)` succeeds exactly when
no exception is raised (`core/request.py` lines 117–125). -/
def probeOk (env : String → Option Params → RespResult) (e : Entry) : Bool :=
  match request env [e.url] (Option.some e.params) true with
  | .ok _ => true
  | .error _ => false

/-- `api_succeeded[name] = True`: set the flag of `name`, appending the key
if absent (Python dict assignment). -/
def setFlagTrue : List (String × Bool) → String → List (String × Bool)
  | [], n => [(n, true)]
  | kv :: rest, n =>
    if kv.1 = n then (kv.1, true) :: rest else kv :: setFlagTrue rest n

/-- Dict read of a success flag; absent keys read as `False`. -/
def flagVal : List (String × Bool) → String → Bool
  | [], _ => false
  | kv :: rest, n => if kv.1 = n then kv.2 else flagVal rest n

/-- Total number of pending probe entries, the fuel of the round loop. -/
def sumLen (qs : List (String × List Entry)) : Nat :=
  qs.foldr (fun q m => q.2.length + m) 0

/-- Length of the longest origin queue. -/
def maxQ (qs : List (String × List Entry)) : Nat :=
  qs.foldr (fun q m => max q.2.length m) 0

/-- All probe entries of all queues, in queue order. -/
def queuesEntries (qs : List (String × List Entry)) : List Entry :=
  qs.foldr (fun q acc => q.2 ++ acc) []

/-- The round loop of `RequestManager.batch_test_apis` (`core/request.py`
lines 106–125): while some queue is non-empty, pop the first entry of every
non-empty queue into a batch, probe the batch, and set the success flag of
every entry whose probe did not raise.  The loop consumes at least one entry
per iteration, so `sumLen` of the initial queues is sufficient fuel; the
second component counts the executed rounds. -/
def probeRoundsAux (env : String → Option Params → RespResult) :
    Nat → List (String × List Entry) → List (String × Bool) →
    List (String × Bool) × Nat
  | 0, _, flags => (flags, 0)
  | Nat.succ n, queues, flags =>
    if queues.all (fun q => q.2.isEmpty) then (flags, 0)
    else
      let batch := queues.filterMap (fun q => q.2.head?)
      let flags2 := batch.foldl
        (fun fs e => if probeOk env e then setFlagTrue fs e.apiName else fs) flags
      let queues2 := queues.map (fun q => (q.1, q.2.tail))
      let r := probeRoundsAux env n queues2 flags2
      (r.1, r.2 + 1)

/-- `RequestManager.batch_test_apis` (`core/request.py` lines 81–130): build
the per-origin queues, initialize every API's flag to `False`
(`dict.fromkeys`), run the round loop, and partition the names by final flag.
The extra `Nat` component is the number of rounds the loop executed. -/
def batch_test_apis (env : String → Option Params → RespResult)
    (apis : Registry) : (List String × List String) × Nat :=
  let queues := buildQueues apis
  let flags0 := apis.map (fun kv => (kv.1, false))
  let r := probeRoundsAux env (sumLen queues) queues flags0
  ((r.1.filterMap (fun kv => if kv.2 then Option.some kv.1 else Option.none),
    r.1.filterMap (fun kv => if kv.2 then Option.none else Option.some kv.1)),
   r.2)

/-- Python truthiness of the optional text component (`if api_text or
api_byte`): present and non-empty. -/
def truthyText : Option String → Bool
  | Option.some s => !(s == "")
  | Option.none => false

/-- Python truthiness of the optional bytes component. -/
def truthyBytes : Option (List Nat) → Bool
  | Option.some b => !b.isEmpty
  | Option.none => false

/-- `params or api_data["params"]` in `APIsPlugin.call_api` (`main.py` line
247): an absent or empty caller dict falls back to the definition's default
params. -/
def effParams (apiData : NormApi) (params : Option Params) : Params :=
  match params with
  | Option.some p => if p.isEmpty then apiData.params else p
  | Option.none => apiData.params

/-- `APIsPlugin.call_api` (`main.py` lines 232–271).  The local cache
(`core/local.py`, not among the provided sources) is taken as the parameters
`saveData`/`loadData`, modelled from the spec as fallible operations
returning an optional text and an optional path.  A pipeline exception, a
save exception, or a success that yields no truthy content all fall through
to the local-cache branch, which tags its result `"local"` on success and
`"error"` on failure; only a saved remote result is tagged `"api"`. -/
def call_api (env : String → Option Params → RespResult)
    (eu : String → Option String) (ht : String → String)
    (saveData : String → String → Option String → Option (List Nat) →
      Except String (Option String × Option String))
    (loadData : String → String → Except String (Option String × Option String))
    (apiData : NormApi) (params : Option Params) :
    Option String × Option String × String :=
  let fallback :=
    match loadData apiData.type apiData.name with
    | .ok lp => (lp.1, lp.2, "local")
    | .error _ => (Option.none, Option.none, "error")
  match get_data env eu ht apiData.urls (Option.some (effParams apiData params))
      apiData.type apiData.target with
  | .error _ => fallback
  | .ok tb =>
    if truthyText tb.1 || truthyBytes tb.2 then
      match saveData apiData.type apiData.name tb.1 tb.2 with
      | .ok sp => (sp.1, sp.2, "api")
      | .error _ => fallback
    else fallback

/-- The first successful response along the URL list, in list order; `none`
when every URL fails.  Used to state the failover contract of `request`. -/
def firstFetch (env : String → Option Params → RespResult)
    (params : Option Params) : List String → Option Resp
  | [] => Option.none
  | u :: rest =>
    match env u params with
    | .ok r => Option.some r
    | .fail _ => firstFetch env params rest

/-- A concrete environment returning a JSON object on every URL. -/
def envJson : String → Option Params → RespResult := fun _ _ =>
  .ok { contentType := "application/json"
        jsonBody := .dict [("k", .str "v")]
        textBody := ""
        rawBody := [] }

/-- A concrete environment returning plain text on every URL. -/
def envText : String → Option Params → RespResult := fun _ _ =>
  .ok { contentType := "text/plain"
        jsonBody := .none
        textBody := "hi"
        rawBody := [] }

/-- A concrete environment on which every URL fails, with distinct error
labels for the two URLs used in the failover tests. -/
def envBad : String → Option Params → RespResult := fun u _ =>
  if u = "bad1" then .fail "err1" else .fail "err2"

/-- C9: called on an empty URL list, `request` raises nothing and returns
Python `None` (the failover loop never runs and no last error is recorded),
and `get_data` propagates this as an `(none, none)` result. -/
theorem request_empty_urls (env : String → Option Params → RespResult)
    (eu : String → Option String) (ht : String → String)
    (params : Option Params) (tm : Bool) (ty tgt : String) :
    request env [] params tm = .ok .none
    ∧ get_data env eu ht [] params ty tgt = .ok (Option.none, Option.none) :=
  ⟨rfl, rfl⟩

/-- C1 counterexample: a successful `get_data` call (the fetch succeeds with
a JSON object and `target` is empty) returns `(none, none)` without raising
any failure, so a `(none, none)` pair IS silently produced on a successful
fetch and no `EmptyResponse` failure exists in the code. -/
theorem get_data_silent_none_counterexample :
    get_data envJson (fun _ => Option.none) id ["u"] Option.none "image" ""
      = .ok (Option.none, Option.none) := rfl

/-- C1 (amended): on a successful `get_data` call, at most one component of
the returned pair is populated — `text` exactly when the final value is a
string, `bytes` exactly when it is raw binary; but when the final value is
neither (a JSON structure or `None`), the call successfully returns
`(none, none)` with no `EmptyResponse` failure. -/
theorem get_data_at_most_one (env : String → Option Params → RespResult)
    (eu : String → Option String) (ht : String → String)
    (urls : List String) (params : Option Params) (ty tgt : String)
    (t : Option String) (b : Option (List Nat))
    (h : get_data env eu ht urls params ty tgt = .ok (t, b)) :
    t = Option.none ∨ b = Option.none := by
  have key : ∀ d : PyVal,
      (finalize d).1 = Option.none ∨ (finalize d).2 = Option.none := by
    intro d; cases d <;> simp [finalize]
  unfold get_data at h
  split at h
  · exact absurd h (by simp)
  · split at h
    · exact absurd h (by simp)
    · rename_i d2 _
      injection h with h2
      rcases key (resolveHtml ht (resolveTarget d2 tgt)) with hk | hk
      · exact Or.inl ((congrArg Prod.fst h2).symm.trans hk)
      · exact Or.inr ((congrArg Prod.snd h2).symm.trans hk)

/-- Witness for C1 (amended): a concrete successful text fetch, where the
pair is `(some "hi", none)`. -/
theorem get_data_at_most_one_witness :
    Option.some "hi" = Option.none ∨ (Option.none : Option (List Nat)) = Option.none :=
  get_data_at_most_one envText (fun _ => Option.none) id ["u"] Option.none
    "text" "" (Option.some "hi") Option.none rfl

/-- Auxiliary failover lemma: whatever the accumulated last error, the loop
returns the classification of the first successful response. -/
theorem requestGo_ok (env : String → Option Params → RespResult)
    (params : Option Params) :
    ∀ (urls : List String) (last : Option String) (r : Resp),
      firstFetch env params urls = Option.some r →
      requestGo env params false urls last = .ok (classifyResp r)
  | [], _, r, h => by simp [firstFetch] at h
  | u :: rest, last, r, h => by
    unfold firstFetch at h
    unfold requestGo
    cases henv : env u params with
    | ok r' => rw [henv] at h; injection h with h'; simp [h']
    | fail e => rw [henv] at h; exact requestGo_ok env params rest (Option.some e) r h

/-- Auxiliary failover lemma: when every URL fails, the loop raises the last
URL's underlying error, whatever the accumulated error on entry. -/
theorem requestGo_allFail (env : String → Option Params → RespResult)
    (params : Option Params) :
    ∀ (urls : List String) (last : Option String) (hne : urls ≠ []) (e : String),
      firstFetch env params urls = Option.none →
      env (urls.getLast hne) params = .fail e →
      requestGo env params false urls last = .error (.exc e)
  | [], _, hne, _, _, _ => absurd rfl hne
  | u :: rest, last, hne, e, hff, hlast => by
    unfold firstFetch at hff
    unfold requestGo
    cases henv : env u params with
    | ok r' => rw [henv] at hff; exact absurd hff (by simp)
    | fail e' =>
      rw [henv] at hff
      cases rest with
      | nil =>
        have : u = (([u] : List String).getLast hne) := rfl
        rw [← this] at hlast
        rw [hlast] at henv
        injection henv with he
        simp [requestGo, he]
      | cons v rest' =>
        have hgl : ((u :: v :: rest') : List String).getLast hne
            = (v :: rest').getLast (List.cons_ne_nil v rest') :=
          List.getLast_cons (List.cons_ne_nil v rest')
        rw [hgl] at hlast
        exact requestGo_allFail env params (v :: rest') (Option.some e')
          (List.cons_ne_nil v rest') e hff hlast

/-- C2: for every non-empty URL list, `request` tries the URLs strictly in
list order, recovering locally from every per-URL failure: it returns the
decoded content of the first successful URL, and when every URL fails it
raises a single failure carrying the last URL's underlying error. -/
theorem request_failover (env : String → Option Params → RespResult)
    (params : Option Params) (urls : List String) (hne : urls ≠ []) :
    (∀ r, firstFetch env params urls = Option.some r →
      request env urls params false = .ok (classifyResp r))
    ∧ (firstFetch env params urls = Option.none →
      ∀ e, env (urls.getLast hne) params = .fail e →
        request env urls params false = .error (.exc e)) :=
  ⟨fun r h => requestGo_ok env params urls Option.none r h,
   fun hff e hlast => requestGo_allFail env params urls Option.none hne e hff hlast⟩

/-- Witness for C2: on a two-element list where both URLs fail, the raised
failure carries the second URL's error. -/
theorem request_failover_witness :
    request envBad ["bad1", "bad2"] Option.none false = .error (.exc "err2") :=
  (request_failover envBad Option.none ["bad1", "bad2"]
    (List.cons_ne_nil _ _)).2 rfl "err2" rfl

/-- A concrete environment whose parameterised fetch yields a URL-bearing
text body and whose parameterless redownload fails. -/
def envIndirect : String → Option Params → RespResult := fun _ ps =>
  match ps with
  | Option.some _ =>
    .ok { contentType := "text/plain", jsonBody := .none
          textBody := "http://x/y.png", rawBody := [] }
  | Option.none => .fail "netdown"

/-- A concrete environment whose parameterised fetch yields a URL-bearing
text body and whose parameterless redownload yields bytes. -/
def envIndirectOk : String → Option Params → RespResult := fun _ ps =>
  match ps with
  | Option.some _ =>
    .ok { contentType := "text/plain", jsonBody := .none
          textBody := "http://x/y.png", rawBody := [] }
  | Option.none =>
    .ok { contentType := "image/png", jsonBody := .none
          textBody := "", rawBody := [7, 7] }

/-- C5 counterexample: the fetched string embeds a URL and the redownload
attempt does not yield bytes — it raises, because every URL fails — yet
`get_data` propagates that raw underlying error (`exc "netdown"`) and not a
`DownloadFailed`/`RuntimeError` carrying the discovered URL. -/
theorem get_data_redownload_counterexample :
    get_data envIndirect (fun s => Option.some s) id ["u"]
        (Option.some [("a", "b")]) "image" "" = .error (.exc "netdown")
    ∧ PErr.exc "netdown" ≠ PErr.runtimeError "http://x/y.png" :=
  ⟨rfl, by simp⟩

/-- C5 (amended): when the fetch yields a plain string, the declared type is
not `"text"`, and an embedded URL is found, the redownload is issued against
the same original `urls` list (with params omitted) and a bytes result
replaces the string; a redownload that *completes* without bytes fails with
`RuntimeError` carrying the discovered URL, while a redownload that itself
raises propagates the raw underlying error instead; and when no embedded URL
is found the string is kept as-is (barring the later HTML block). -/
theorem get_data_indirection
    (env : String → Option Params → RespResult)
    (eu : String → Option String) (ht : String → String)
    (urls : List String) (params : Option Params) (ty tgt s : String)
    (hfetch : request env urls params false = .ok (.str s))
    (hty : ty ≠ "text") :
    (∀ u, eu s = Option.some u →
      (∀ b, request env urls Option.none false = .ok (.bytes b) →
        get_data env eu ht urls params ty tgt = .ok (Option.none, Option.some b))
      ∧ (∀ d, request env urls Option.none false = .ok d → (∀ b, d ≠ .bytes b) →
        get_data env eu ht urls params ty tgt = .error (.runtimeError u))
      ∧ (∀ e, request env urls Option.none false = .error e →
        get_data env eu ht urls params ty tgt = .error e))
    ∧ (eu s = Option.none → strStartsWith (stripStr s) "<!DOCTYPE html>" = false →
      get_data env eu ht urls params ty tgt = .ok (Option.some s, Option.none)) := by
  constructor
  · intro u hu
    refine ⟨?_, ?_, ?_⟩
    · intro b hdl
      simp [get_data, resolveIndirection, hfetch, hty, hu, hdl,
        resolveTarget, resolveHtml, finalize]
    · intro d hdl hnb
      cases d
      case bytes b => exact absurd rfl (hnb b)
      all_goals
        simp [get_data, resolveIndirection, hfetch, hty, hu, hdl]
    · intro e he
      simp [get_data, resolveIndirection, hfetch, hty, hu, he]
  · intro hnone hnotdoc
    simp [get_data, resolveIndirection, hfetch, hty, hnone,
      resolveTarget, resolveHtml, hnotdoc, finalize]

/-- Witness for C5 (amended): a concrete indirection whose redownload yields
bytes, which replace the string. -/
theorem get_data_indirection_witness :
    get_data envIndirectOk (fun s => Option.some s) id ["u"]
      (Option.some [("a", "b")]) "image" "" = .ok (Option.none, Option.some [7, 7]) :=
  ((get_data_indirection envIndirectOk (fun s => Option.some s) id ["u"]
      (Option.some [("a", "b")]) "image" "" "http://x/y.png" rfl
      (by decide)).1 "http://x/y.png" rfl).1 [7, 7] rfl

/-- Lookup after a dict insertion finds the inserted value. -/
theorem lookup_dictInsert (k : String) (v : RawApi) :
    ∀ m : Registry, (dictInsert k v m).lookup k = Option.some v := by
  intro m
  induction m with
  | nil => simp [dictInsert]
  | cons kv rest ih =>
    by_cases h : kv.1 = k
    · simp [dictInsert, h]
    · simp only [dictInsert, if_neg h]
      rw [List.lookup_cons]
      have hb : (k == kv.1) = false := beq_eq_false_iff_ne.mpr (fun he => h he.symm)
      rw [hb]
      exact ih

/-- C7: `add_api` inserts or overwrites the registry entry keyed by the
definition's primary keyword (the first element of its keyword list, or the
bare keyword string) and persists the registry (`disk` mirrors `apis`); when
no keyword is present it fails with the logged `InvalidDefinition` outcome
and the state is unchanged. -/
theorem add_api_contract (st : RegState) (info : RawApi) :
    (∀ k rest, info.keyword = Option.some (.list (k :: rest)) → k ≠ "" →
      add_api st info =
        ({ apis := dictInsert k info st.apis, disk := dictInsert k info st.apis },
         Option.none)
      ∧ (dictInsert k info st.apis).lookup k = Option.some info)
    ∧ (∀ s, info.keyword = Option.some (.str s) → s ≠ "" →
      add_api st info =
        ({ apis := dictInsert s info st.apis, disk := dictInsert s info st.apis },
         Option.none))
    ∧ (info.keyword = Option.none →
      add_api st info = (st, Option.some .invalidDefinition)) := by
  refine ⟨?_, ?_, ?_⟩
  · intro k rest hk hne
    constructor
    · simp [add_api, primaryName, hk, hne]
    · exact lookup_dictInsert k info st.apis
  · intro s hs hne
    simp [add_api, primaryName, hs, hne]
  · intro hnone
    simp [add_api, primaryName, hnone]

/-- Witness for C7: registering a definition whose keyword list starts with
`"joke"` into the empty registry stores it under `"joke"` and persists. -/
theorem add_api_contract_witness :
    add_api ⟨[], []⟩ { keyword := Option.some (.list ["joke"]) } =
      ({ apis := [("joke", { keyword := Option.some (.list ["joke"]) })],
         disk := [("joke", { keyword := Option.some (.list ["joke"]) })] },
       Option.none) :=
  ((add_api_contract ⟨[], []⟩ { keyword := Option.some (.list ["joke"]) }).1
    "joke" [] rfl (by decide)).1

/-- A registry whose single definition stores an empty `url` list. -/
def apisEmptyUrl : Registry := [("x", { url := Option.some (.list []) })]

/-- C4 counterexample: for the registered name `"x"` whose stored `url` field
is the empty list, `normalize_api_data` returns an *empty* `urls` sequence,
so `urls` is not always non-empty for registered definitions. -/
theorem normalize_empty_urls_counterexample :
    (normalize_api_data apisEmptyUrl "x").urls = [] := rfl

/-- C4 (amended): for every definition name, `normalize_api_data` returns a
`type` in `{text, image, video, audio}` (invalid or missing values coerced to
the default `"image"`), and a `urls` sequence that is non-empty whenever the
stored `url` field is absent, a string, or a non-empty list — for a stored
empty-list `url` the returned `urls` is empty.  The returned value is an
independent snapshot (the source's deep copy; values here are immutable). -/
theorem normalize_types_and_urls (apis : Registry) (name : String) :
    (normalize_api_data apis name).type ∈ ALLOWED_TYPES
    ∧ ((match ((apis.lookup name).getD {}).url with
        | Option.some (.list l) => l ≠ []
        | _ => True) →
      (normalize_api_data apis name).urls ≠ []) := by
  constructor
  · unfold normalize_api_data
    by_cases h : ALLOWED_TYPES.contains (((apis.lookup name).getD {}).type.getD "")
    · simp only [h, if_true]
      simpa using h
    · simp only [h, Bool.false_eq_true, if_false]
      simp [default_api_type, ALLOWED_TYPES]
  · intro hurl
    unfold normalize_api_data
    cases hu : ((apis.lookup name).getD {}).url with
    | none => simp [hu]
    | some sl =>
      cases sl with
      | str s => simp [hu]
      | list l =>
        rw [hu] at hurl
        simpa [hu] using hurl

/-- A registry with one definition carrying an invalid stored type and a
string `url`. -/
def apisWeird : Registry :=
  [("y", { url := Option.some (.str "http://a"), type := Option.some "weird" })]

/-- Witness for C4 (amended): a registered definition with an invalid stored
type and a string `url` normalizes to an allowed type and non-empty urls. -/
theorem normalize_types_and_urls_witness :
    (normalize_api_data apisWeird "y").type ∈ ALLOWED_TYPES
    ∧ (normalize_api_data apisWeird "y").urls ≠ [] :=
  ⟨(normalize_types_and_urls apisWeird "y").1,
   (normalize_types_and_urls apisWeird "y").2 (by simp [apisWeird])⟩

/-- The empty trigger is contained in no non-empty keyword: Python's
`k in ""` holds only for `k = ""`. -/
theorem strContains_empty_hay (k : String) (hk : k ≠ "") :
    strContains "" k = false := by
  have hd : k.data ≠ [] := fun h => hk (String.ext h)
  cases hdc : k.data with
  | nil => exact absurd hdc hd
  | cons c cs =>
    show containsFrom k.data [] = false
    show k.data.isEmpty = false
    rw [hdc]
    rfl

/-- A registry with a single fuzzy definition keyed by `"ab"`. -/
def apisFuzzy : Registry :=
  [("ab", { keyword := Option.some (.list ["ab"]), fuzzy := Option.some true,
            url := Option.some (.str "http://e") })]

/-- C8: provided no registered keyword list contains the empty string,
matching the empty trigger returns `none`; and fuzzy matching is raw
case-sensitive substring containment of a keyword in the trigger, so the
fuzzy keyword `"ab"` matches the trigger `"abc"`. -/
theorem match_empty_trigger (apis : Registry) (pick : Nat)
    (hk : ∀ kv ∈ apis, "" ∉ (kv : String × RawApi).2.keywordsList) :
    match_api_by_name apis "" pick = Option.none
    ∧ ∀ pick2, match_api_by_name apisFuzzy "abc" pick2
        = Option.some (normalize_api_data apisFuzzy "ab") := by
  constructor
  · have hcoll : collectMatches apis "" = [] := by
      unfold collectMatches
      rw [List.filterMap_eq_nil_iff]
      intro kv hkv
      have h1 : kv.2.keywordsList.contains "" = false := by
        have := hk kv hkv
        simpa using this
      have h2 : (kv.2.keywordsList.any fun k => strContains "" k) = false := by
        rw [List.any_eq_false]
        intro k hmem
        have hne : k ≠ "" := by
          intro he
          exact hk kv hkv (he ▸ hmem)
        simp [strContains_empty_hay k hne]
      simp [h1, h2]
      exact hk kv hkv
    simp [match_api_by_name, hcoll]
  · intro pick2
    have hc : collectMatches apisFuzzy "abc" = [((0 : Int), "ab")] := rfl
    simp [match_api_by_name, hc, Nat.mod_one, List.getD]

/-- Witness for C8: `apisFuzzy` has no empty keyword, and the empty trigger
indeed matches nothing on it. -/
theorem match_empty_trigger_witness :
    match_api_by_name apisFuzzy "" 0 = Option.none :=
  (match_empty_trigger apisFuzzy 0 (by decide)).1

/-- A registry with two definitions both exactly matching the trigger
`"hi"`, with priorities 5 and 3. -/
def apisPrio : Registry :=
  [("a", { keyword := Option.some (.list ["a", "hi"]),
           priority := Option.some 5, url := Option.some (.str "http://a") }),
   ("b", { keyword := Option.some (.list ["b", "hi"]),
           priority := Option.some 3, url := Option.some (.str "http://b") })]

/-- C3: whenever at least one definition matches the trigger,
`match_api_by_name` returns the normalization of a matched key whose priority
is maximal among all matches, for every random pick; in particular, when the
matches are exactly one definition of priority 5 and one of priority 3, the
priority-5 definition is returned deterministically. -/
theorem match_best_priority (apis : Registry) (msg : String) (pick : Nat)
    (hne : collectMatches apis msg ≠ []) :
    (∃ pk, pk ∈ collectMatches apis msg
      ∧ (∀ qk ∈ collectMatches apis msg, qk.1 ≤ pk.1)
      ∧ match_api_by_name apis msg pick = Option.some (normalize_api_data apis pk.2))
    ∧ (∀ k1 k2, collectMatches apis msg = [((5 : Int), k1), ((3 : Int), k2)] →
      match_api_by_name apis msg pick = Option.some (normalize_api_data apis k1)) := by
  have htrans : ∀ a b c : Int × String, prioGe a b → prioGe b c → prioGe a c := by
    intro a b c h1 h2
    simp only [prioGe, decide_eq_true_eq] at h1 h2 ⊢
    exact le_trans h2 h1
  have htotal : ∀ a b : Int × String, prioGe a b || prioGe b a := by
    intro a b
    simp only [prioGe, Bool.or_eq_true, decide_eq_true_eq]
    exact le_total b.1 a.1
  constructor
  · have hperm := List.mergeSort_perm (collectMatches apis msg) prioGe
    have hsorted := List.sorted_mergeSort htrans htotal (collectMatches apis msg)
    cases hs : (collectMatches apis msg).mergeSort prioGe with
    | nil =>
      rw [hs] at hperm
      exact absurd hperm.symm.eq_nil hne
    | cons top rest =>
      rw [hs] at hperm hsorted
      have htopmem : top ∈ (top :: rest).filter (fun m => m.1 == top.1) := by
        simp [List.mem_filter]
      have hlen : 0 < ((top :: rest).filter (fun m => m.1 == top.1)).length :=
        List.length_pos.mpr (fun he => by simp [he] at htopmem)
      have hmod := Nat.mod_lt pick hlen
      set sel := ((top :: rest).filter (fun m => m.1 == top.1)).getD
        (pick % ((top :: rest).filter (fun m => m.1 == top.1)).length) top with hseldef
      have hselmem : sel ∈ (top :: rest).filter (fun m => m.1 == top.1) := by
        rw [hseldef, List.getD_eq_getElem?_getD, List.getElem?_eq_getElem hmod]
        simp only [Option.getD_some]
        exact List.getElem_mem hmod
      obtain ⟨hsel_in, hsel_eq⟩ := List.mem_filter.mp hselmem
      have hsel_eq2 : sel.1 = top.1 := by simpa using hsel_eq
      refine ⟨sel, hperm.subset hsel_in, ?_, ?_⟩
      · intro qk hqk
        have hqk2 : qk ∈ top :: rest := hperm.mem_iff.mpr hqk
        rw [hsel_eq2]
        rcases List.mem_cons.mp hqk2 with h | h
        · rw [h]
        · have hp := (List.pairwise_cons.mp hsorted).1 qk h
          simpa [prioGe] using hp
      · rw [hseldef]
        unfold match_api_by_name
        rw [hs]
  · intro k1 k2 hcm
    have hms : ([((5 : Int), k1), ((3 : Int), k2)] : List (Int × String)).mergeSort prioGe
        = [((5 : Int), k1), ((3 : Int), k2)] :=
      List.mergeSort_of_sorted (by simp [prioGe])
    have h35 : ((3 : Int) == (5 : Int)) = false := by decide
    unfold match_api_by_name
    rw [hcm, hms]
    simp [h35, Nat.mod_one, List.getD]

/-- Witness for C3: on the concrete two-definition registry with priorities 5
and 3, the priority-5 key `"a"` is returned. -/
theorem match_best_priority_witness :
    match_api_by_name apisPrio "hi" 0 = Option.some (normalize_api_data apisPrio "a") :=
  (match_best_priority apisPrio "hi" 0 (by decide)).2 "a" "b" rfl

/-- A normalized definition hitting `envJson` with empty target. -/
def apiDataJson : NormApi :=
  { name := "j", urls := ["u"], type := "image", params := [], target := ""
    fuzzy := false, priority := 0 }

/-- A local-cache save stub that stores nothing. -/
def saveNoop : String → String → Option String → Option (List Nat) →
    Except String (Option String × Option String) :=
  fun _ _ _ _ => .ok (Option.none, Option.none)

/-- A local-cache load stub holding cached text. -/
def loadCached : String → String → Except String (Option String × Option String) :=
  fun _ _ => .ok (Option.some "cached", Option.none)

/-- C10: in `call_api`, a pipeline call that succeeds but yields no truthy
text and no truthy bytes is treated exactly like a pipeline failure: the
result is not saved (the outcome is independent of the save collaborator),
the local cache is consulted, the returned tag is `"local"` on a cache hit
and `"error"` on a cache miss, and — fully generally — the `"api"` tag is
returned only when the pipeline produced truthy content. -/
theorem call_api_empty_is_failure (env : String → Option Params → RespResult)
    (eu : String → Option String) (ht : String → String)
    (loadData : String → String → Except String (Option String × Option String))
    (apiData : NormApi) (params : Option Params)
    (t : Option String) (b : Option (List Nat))
    (h : get_data env eu ht apiData.urls (Option.some (effParams apiData params))
        apiData.type apiData.target = .ok (t, b))
    (ht1 : truthyText t = false) (hb1 : truthyBytes b = false) :
    (∀ sd sd', call_api env eu ht sd loadData apiData params
      = call_api env eu ht sd' loadData apiData params)
    ∧ (∀ sd, call_api env eu ht sd loadData apiData params =
        match loadData apiData.type apiData.name with
        | .ok lp => (lp.1, lp.2, "local")
        | .error _ => (Option.none, Option.none, "error"))
    ∧ (∀ sd, (call_api env eu ht sd loadData apiData params).2.2 = "local"
        ∨ (call_api env eu ht sd loadData apiData params).2.2 = "error")
    ∧ (∀ env2 eu2 ht2 sd2 ld2 ad2 ps2,
        (call_api env2 eu2 ht2 sd2 ld2 ad2 ps2).2.2 = "api" →
        ∃ t2 b2, get_data env2 eu2 ht2 ad2.urls (Option.some (effParams ad2 ps2))
            ad2.type ad2.target = .ok (t2, b2)
          ∧ (truthyText t2 = true ∨ truthyBytes b2 = true)) := by
  refine ⟨?_, ?_, ?_, ?_⟩
  · intro sd sd'
    simp [call_api, h, ht1, hb1]
  · intro sd
    simp [call_api, h, ht1, hb1]
  · intro sd
    cases hl : loadData apiData.type apiData.name with
    | ok lp => left; simp [call_api, h, ht1, hb1, hl]
    | error e => right; simp [call_api, h, ht1, hb1, hl]
  · intro env2 eu2 ht2 sd2 ld2 ad2 ps2 htag
    cases hg : get_data env2 eu2 ht2 ad2.urls (Option.some (effParams ad2 ps2))
        ad2.type ad2.target with
    | error e =>
      exfalso
      cases hl : ld2 ad2.type ad2.name with
      | ok lp => simp [call_api, hg, hl] at htag
      | error e2 => simp [call_api, hg, hl] at htag
    | ok tb =>
      by_cases htb : (truthyText tb.1 || truthyBytes tb.2) = true
      · refine ⟨tb.1, tb.2, ?_, by simpa using htb⟩
        rw [Prod.mk.eta]
      · exfalso
        rw [Bool.not_eq_true] at htb
        cases hl : ld2 ad2.type ad2.name with
        | ok lp => simp [call_api, hg, hl, htb] at htag
        | error e2 => simp [call_api, hg, hl, htb] at htag

/-- Witness for C10: a successful JSON fetch with empty target yields no
content, and `call_api` answers from the local cache with tag `"local"`. -/
theorem call_api_empty_is_failure_witness :
    call_api envJson (fun _ => Option.none) id saveNoop loadCached apiDataJson
      Option.none = (Option.some "cached", Option.none, "local") :=
  ((call_api_empty_is_failure envJson (fun _ => Option.none) id loadCached
      apiDataJson Option.none Option.none Option.none rfl rfl rfl).2.1
    saveNoop).trans rfl

/-- `sumLen` on a cons. -/
theorem sumLen_cons (q : String × List Entry) (rest : List (String × List Entry)) :
    sumLen (q :: rest) = q.2.length + sumLen rest := rfl

/-- `maxQ` on a cons. -/
theorem maxQ_cons (q : String × List Entry) (rest : List (String × List Entry)) :
    maxQ (q :: rest) = max q.2.length (maxQ rest) := rfl

/-- `queuesEntries` on a cons. -/
theorem queuesEntries_cons (q : String × List Entry)
    (rest : List (String × List Entry)) :
    queuesEntries (q :: rest) = q.2 ++ queuesEntries rest := rfl

/-- No pending entries exactly when every queue is empty. -/
theorem sumLen_eq_zero_iff (qs : List (String × List Entry)) :
    sumLen qs = 0 ↔ qs.all (fun q => q.2.isEmpty) = true := by
  induction qs with
  | nil => simp [sumLen]
  | cons q rest ih =>
    rw [sumLen_cons, List.all_cons]
    simp [ih, Nat.add_eq_zero, List.length_eq_zero, List.isEmpty_iff, and_comm]

/-- The longest queue is empty exactly when every queue is empty. -/
theorem maxQ_eq_zero_iff (qs : List (String × List Entry)) :
    maxQ qs = 0 ↔ qs.all (fun q => q.2.isEmpty) = true := by
  induction qs with
  | nil => simp [maxQ]
  | cons q rest ih =>
    rw [maxQ_cons, List.all_cons]
    simp [ih, Nat.max_eq_zero_iff, List.length_eq_zero, List.isEmpty_iff, and_comm]

/-- Popping one entry per queue never increases the pending count. -/
theorem sumLen_tail_le (qs : List (String × List Entry)) :
    sumLen (qs.map (fun q => (q.1, q.2.tail))) ≤ sumLen qs := by
  induction qs with
  | nil => simp [sumLen]
  | cons q rest ih =>
    simp only [List.map_cons, sumLen_cons]
    have hlen : q.2.tail.length = q.2.length - 1 := List.length_tail q.2
    omega

/-- Popping one entry per queue strictly decreases the pending count when
some queue is non-empty. -/
theorem sumLen_tail_lt (qs : List (String × List Entry))
    (h : qs.all (fun q => q.2.isEmpty) = false) :
    sumLen (qs.map (fun q => (q.1, q.2.tail))) < sumLen qs := by
  induction qs with
  | nil => simp at h
  | cons q rest ih =>
    simp only [List.map_cons, sumLen_cons]
    rw [List.all_cons, Bool.and_eq_false_iff] at h
    have hlen : q.2.tail.length = q.2.length - 1 := List.length_tail q.2
    rcases h with h1 | h2
    · have hne : q.2 ≠ [] := by simpa [List.isEmpty_iff] using h1
      have hpos : 0 < q.2.length := List.length_pos.mpr hne
      have := sumLen_tail_le rest
      omega
    · have := ih h2
      omega

/-- Popping one entry per queue decrements the longest queue length. -/
theorem maxQ_tail (qs : List (String × List Entry)) :
    maxQ (qs.map (fun q => (q.1, q.2.tail))) = maxQ qs - 1 := by
  induction qs with
  | nil => simp [maxQ]
  | cons q rest ih =>
    rw [List.map_cons, maxQ_cons, maxQ_cons, ih, List.length_tail]
    rcases Nat.le_total q.2.length (maxQ rest) with h | h
    · rw [Nat.max_eq_right h, Nat.max_eq_right (Nat.sub_le_sub_right h 1)]
    · rw [Nat.max_eq_left h, Nat.max_eq_left (Nat.sub_le_sub_right h 1)]

/-- All-empty queues carry no entries. -/
theorem queuesEntries_eq_nil_of_all_empty (qs : List (String × List Entry))
    (h : qs.all (fun q => q.2.isEmpty) = true) : queuesEntries qs = [] := by
  induction qs with
  | nil => rfl
  | cons q rest ih =>
    rw [List.all_cons, Bool.and_eq_true] at h
    rw [queuesEntries_cons, ih h.2]
    have : q.2 = [] := by simpa [List.isEmpty_iff] using h.1
    simp [this]

/-- The round loop runs exactly `maxQ` rounds: one per pop from the longest
origin queue (given sufficient fuel, which `batch_test_apis` supplies). -/
theorem probeRoundsAux_count (env : String → Option Params → RespResult) :
    ∀ (fuel : Nat) (queues : List (String × List Entry))
      (flags : List (String × Bool)), sumLen queues ≤ fuel →
      (probeRoundsAux env fuel queues flags).2 = maxQ queues := by
  intro fuel
  induction fuel with
  | zero =>
    intro queues flags h
    have h0 : sumLen queues = 0 := Nat.le_zero.mp h
    have hall := (sumLen_eq_zero_iff queues).mp h0
    have h2 := (maxQ_eq_zero_iff queues).mpr hall
    simp [probeRoundsAux, h2]
  | succ n ih =>
    intro queues flags h
    by_cases hall : queues.all (fun q => q.2.isEmpty) = true
    · have h2 := (maxQ_eq_zero_iff queues).mpr hall
      simp [probeRoundsAux, hall, h2]
    · have hallf : queues.all (fun q => q.2.isEmpty) = false := by
        simpa using hall
      have hlt := sumLen_tail_lt queues hallf
      have hle : sumLen (queues.map (fun q => (q.1, q.2.tail))) ≤ n := by omega
      have hmax0 : maxQ queues ≠ 0 := by
        intro h0
        exact hall ((maxQ_eq_zero_iff queues).mp h0)
      simp only [probeRoundsAux, hallf, Bool.false_eq_true, if_false]
      rw [ih _ _ hle, maxQ_tail]
      omega

/-- Reading a flag after `setFlagTrue`. -/
theorem flagVal_setFlagTrue (fs : List (String × Bool)) (n m : String) :
    flagVal (setFlagTrue fs n) m = if m = n then true else flagVal fs m := by
  induction fs with
  | nil =>
    simp only [setFlagTrue, flagVal]
    by_cases h : n = m
    · simp [h]
    · have hmn : ¬ m = n := fun hm => h hm.symm
      simp [h, hmn]
  | cons kv rest ih =>
    simp only [setFlagTrue]
    by_cases h : kv.1 = n
    · rw [if_pos h]
      by_cases h2 : kv.1 = m
      · have hmn : m = n := h2.symm.trans h
        simp [flagVal, h2, hmn]
      · have hmn : ¬ m = n := fun he => h2 (h.trans he.symm)
        simp [flagVal, h2, hmn]
    · rw [if_neg h]
      by_cases h2 : kv.1 = m
      · have hmn : ¬ m = n := fun he => h (h2.trans he)
        simp [flagVal, h2, hmn]
      · simp [flagVal, h2, ih]

/-- Reading a flag after one batch of probe updates: true exactly when it was
true before or some batch entry with that name probed successfully. -/
theorem flagVal_foldl (env : String → Option Params → RespResult)
    (batch : List Entry) :
    ∀ (flags : List (String × Bool)) (name : String),
      flagVal (batch.foldl
          (fun fs e => if probeOk env e then setFlagTrue fs e.apiName else fs)
          flags) name
        = (flagVal flags name
          || batch.any (fun e => e.apiName == name && probeOk env e)) := by
  induction batch with
  | nil => intro flags name; simp
  | cons e bs ih =>
    intro flags name
    rw [List.foldl_cons, List.any_cons, ih]
    by_cases hp : probeOk env e = true
    · rw [if_pos hp, flagVal_setFlagTrue]
      by_cases hn : name = e.apiName
      · simp [hn, hp]
      · have hbeq : (e.apiName == name) = false :=
          beq_eq_false_iff_ne.mpr (fun he => hn he.symm)
        simp [hn, hbeq]
    · have hpf : probeOk env e = false := by simpa using hp
      rw [if_neg hp]
      simp [hpf, Bool.or_assoc]

/-- Splitting one round off the pending entries: any-predicate over all
entries equals any over the popped batch or over the remaining tails. -/
theorem any_queuesEntries_step (qs : List (String × List Entry))
    (P : Entry → Bool) :
    (queuesEntries qs).any P
      = ((qs.filterMap (fun q => q.2.head?)).any P
        || (queuesEntries (qs.map (fun q => (q.1, q.2.tail)))).any P) := by
  induction qs with
  | nil => simp [queuesEntries]
  | cons q rest ih =>
    obtain ⟨site, es⟩ := q
    rw [queuesEntries_cons, List.any_append, ih]
    cases es with
    | nil =>
      simp [List.filterMap_cons, queuesEntries_cons]
    | cons h t =>
      simp only [List.filterMap_cons, List.head?_cons, List.map_cons,
        queuesEntries_cons, List.any_append, List.any_cons, List.tail_cons]
      cases P h <;> cases t.any P <;>
        cases (rest.filterMap (fun q => q.2.head?)).any P <;>
        cases (queuesEntries (rest.map (fun q => (q.1, q.2.tail)))).any P <;> rfl

/-- Reading a flag after the whole round loop: true exactly when it was true
initially or some pending entry with that name probes successfully. -/
theorem probeRoundsAux_flag (env : String → Option Params → RespResult) :
    ∀ (fuel : Nat) (queues : List (String × List Entry))
      (flags : List (String × Bool)) (name : String), sumLen queues ≤ fuel →
      flagVal ((probeRoundsAux env fuel queues flags).1) name
        = (flagVal flags name
          || (queuesEntries queues).any
              (fun e => e.apiName == name && probeOk env e)) := by
  intro fuel
  induction fuel with
  | zero =>
    intro queues flags name h
    have h0 : sumLen queues = 0 := Nat.le_zero.mp h
    have hmt := queuesEntries_eq_nil_of_all_empty queues
      ((sumLen_eq_zero_iff queues).mp h0)
    simp [probeRoundsAux, hmt]
  | succ n ih =>
    intro queues flags name h
    by_cases hall : queues.all (fun q => q.2.isEmpty) = true
    · have hmt := queuesEntries_eq_nil_of_all_empty queues hall
      simp [probeRoundsAux, hall, hmt]
    · have hallf : queues.all (fun q => q.2.isEmpty) = false := by
        simpa using hall
      have hlt := sumLen_tail_lt queues hallf
      have hle : sumLen (queues.map (fun q => (q.1, q.2.tail))) ≤ n := by omega
      simp only [probeRoundsAux, hallf, Bool.false_eq_true, if_false]
      rw [ih _ _ name hle, flagVal_foldl, any_queuesEntries_step queues,
        Bool.or_assoc]

/-- The success flag never reverts: once true before the loop, it stays
true after, whatever the fuel. -/
theorem probeRoundsAux_mono (env : String → Option Params → RespResult) :
    ∀ (fuel : Nat) (queues : List (String × List Entry))
      (flags : List (String × Bool)) (name : String),
      flagVal flags name = true →
      flagVal ((probeRoundsAux env fuel queues flags).1) name = true := by
  intro fuel
  induction fuel with
  | zero => intro queues flags name h; exact h
  | succ n ih =>
    intro queues flags name h
    by_cases hall : queues.all (fun q => q.2.isEmpty) = true
    · simp [probeRoundsAux, hall, h]
    · have hallf : queues.all (fun q => q.2.isEmpty) = false := by
        simpa using hall
      simp only [probeRoundsAux, hallf, Bool.false_eq_true, if_false]
      apply ih
      rw [flagVal_foldl, h]
      rfl

/-- Setting a flag for a name already present keeps the key list. -/
theorem setFlagTrue_keys (fs : List (String × Bool)) (n : String)
    (h : n ∈ fs.map Prod.fst) :
    (setFlagTrue fs n).map Prod.fst = fs.map Prod.fst := by
  induction fs with
  | nil => simp at h
  | cons kv rest ih =>
    by_cases hk : kv.1 = n
    · simp [setFlagTrue, hk]
    · have h2 : n ∈ rest.map Prod.fst := by
        rw [List.map_cons] at h
        rcases List.mem_cons.mp h with h1 | h1
        · exact absurd h1.symm hk
        · exact h1
      simp [setFlagTrue, hk, ih h2]

/-- One batch of probe updates keeps the key list when every batch entry's
name is already a key. -/
theorem foldl_flags_keys (env : String → Option Params → RespResult)
    (batch : List Entry) :
    ∀ (flags : List (String × Bool)),
      (∀ e ∈ batch, e.apiName ∈ flags.map Prod.fst) →
      ((batch.foldl
          (fun fs e => if probeOk env e then setFlagTrue fs e.apiName else fs)
          flags).map Prod.fst) = flags.map Prod.fst := by
  induction batch with
  | nil => intro flags _; rfl
  | cons e bs ih =>
    intro flags h
    have he : e.apiName ∈ flags.map Prod.fst := h e (List.mem_cons_self e bs)
    rw [List.foldl_cons]
    by_cases hp : probeOk env e = true
    · rw [if_pos hp]
      rw [ih (setFlagTrue flags e.apiName) ?_, setFlagTrue_keys flags e.apiName he]
      intro e2 he2
      rw [setFlagTrue_keys flags e.apiName he]
      exact h e2 (List.mem_cons_of_mem _ he2)
    · rw [if_neg hp]
      exact ih flags (fun e2 he2 => h e2 (List.mem_cons_of_mem _ he2))

/-- An entry popped into a batch comes from its queue. -/
theorem mem_of_batch (qs : List (String × List Entry)) (e : Entry)
    (h : e ∈ qs.filterMap (fun q => q.2.head?)) : e ∈ queuesEntries qs := by
  rw [List.mem_filterMap] at h
  obtain ⟨q, hq, hh⟩ := h
  induction qs with
  | nil => simp at hq
  | cons q0 rest ih =>
    rw [queuesEntries_cons, List.mem_append]
    rcases List.mem_cons.mp hq with h1 | h1
    · left
      subst h1
      exact List.mem_of_mem_head? hh
    · right
      exact ih h1

/-- A remaining tail entry comes from its queue. -/
theorem mem_of_tails (qs : List (String × List Entry)) (e : Entry)
    (h : e ∈ queuesEntries (qs.map (fun q => (q.1, q.2.tail)))) :
    e ∈ queuesEntries qs := by
  induction qs with
  | nil => simp [queuesEntries] at h
  | cons q rest ih =>
    rw [List.map_cons, queuesEntries_cons, List.mem_append] at h
    rw [queuesEntries_cons, List.mem_append]
    rcases h with h1 | h1
    · exact Or.inl (List.mem_of_mem_tail h1)
    · exact Or.inr (ih h1)

/-- The whole round loop keeps the key list when every pending entry's name
is already a key. -/
theorem probeRoundsAux_keys (env : String → Option Params → RespResult) :
    ∀ (fuel : Nat) (queues : List (String × List Entry))
      (flags : List (String × Bool)),
      (∀ e ∈ queuesEntries queues, e.apiName ∈ flags.map Prod.fst) →
      ((probeRoundsAux env fuel queues flags).1).map Prod.fst
        = flags.map Prod.fst := by
  intro fuel
  induction fuel with
  | zero => intro queues flags _; rfl
  | succ n ih =>
    intro queues flags h
    by_cases hall : queues.all (fun q => q.2.isEmpty) = true
    · simp [probeRoundsAux, hall]
    · have hallf : queues.all (fun q => q.2.isEmpty) = false := by
        simpa using hall
      simp only [probeRoundsAux, hallf, Bool.false_eq_true, if_false]
      have hbatch : ∀ e ∈ queues.filterMap (fun q => q.2.head?),
          e.apiName ∈ flags.map Prod.fst :=
        fun e he => h e (mem_of_batch queues e he)
      have hkeys1 := foldl_flags_keys env
        (queues.filterMap (fun q => q.2.head?)) flags hbatch
      rw [ih _ _ ?_, hkeys1]
      intro e he
      rw [hkeys1]
      exact h e (mem_of_tails queues e he)

/-- Initial flags (`dict.fromkeys(..., False)`) read `False` everywhere. -/
theorem flagVal_init (l : Registry) (n : String) :
    flagVal (l.map (fun kv => (kv.1, false))) n = false := by
  induction l with
  | nil => rfl
  | cons kv rest ih =>
    by_cases h : kv.1 = n <;> simp [flagVal, h, ih]

/-- A name listed by the final partition is a key of the flag dict. -/
theorem filterMap_true_subset_keys (fs : List (String × Bool)) (name : String)
    (h : name ∈ fs.filterMap
      (fun kv => if kv.2 then Option.some kv.1 else Option.none)) :
    name ∈ fs.map Prod.fst := by
  rw [List.mem_filterMap] at h
  obtain ⟨kv, hkv, hif⟩ := h
  rw [List.mem_map]
  refine ⟨kv, hkv, ?_⟩
  by_cases hv : kv.2 = true
  · rw [hv] at hif
    simpa using hif
  · rw [Bool.not_eq_true] at hv
    rw [hv] at hif
    simp at hif

/-- With no duplicate keys, a name is listed by the final partition exactly
when its flag reads true. -/
theorem mem_filterMap_true (fs : List (String × Bool)) (name : String)
    (hnd : (fs.map Prod.fst).Nodup) :
    name ∈ fs.filterMap
      (fun kv => if kv.2 then Option.some kv.1 else Option.none)
      ↔ flagVal fs name = true := by
  induction fs with
  | nil => simp [flagVal]
  | cons kv rest ih =>
    rw [List.map_cons, List.nodup_cons] at hnd
    by_cases hk : kv.1 = name
    · subst hk
      cases hv : kv.2 with
      | true => simp [List.filterMap_cons, hv, flagVal]
      | false =>
        simp only [List.filterMap_cons, hv, Bool.false_eq_true, if_false, flagVal,
          if_pos rfl]
        constructor
        · intro hmem
          exact absurd (filterMap_true_subset_keys rest kv.1 hmem) hnd.1
        · intro hfalse
          exact absurd hfalse (by simp)
    · cases hv : kv.2 with
      | true =>
        simp only [List.filterMap_cons, hv, if_true, List.mem_cons, flagVal,
          if_neg hk]
        rw [ih hnd.2]
        have : ¬ name = kv.1 := fun he => hk he.symm
        simp [this]
      | false =>
        simp only [List.filterMap_cons, hv, Bool.false_eq_true, if_false,
          flagVal, if_neg hk]
        exact ih hnd.2

/-- Contents of `site_to_entries[site].append(entry)`: the new entry joins
the existing ones. -/
theorem mem_addToGroup (site : String) (e x : Entry) :
    ∀ qs, x ∈ queuesEntries (addToGroup site e qs)
      ↔ x ∈ queuesEntries qs ∨ x = e := by
  intro qs
  induction qs with
  | nil => simp [addToGroup, queuesEntries]
  | cons q rest ih =>
    by_cases h : q.1 = site
    · simp only [addToGroup, if_pos h, queuesEntries_cons, List.mem_append,
        List.mem_singleton]
      tauto
    · simp only [addToGroup, if_neg h, queuesEntries_cons, List.mem_append, ih]
      tauto

/-- Grouping by origin preserves the probe entries (as a set). -/
theorem mem_buildQueues_entries (apis : Registry) (x : Entry) :
    x ∈ queuesEntries (buildQueues apis) ↔ x ∈ flatEntries apis := by
  have key : ∀ (es : List Entry) (acc : List (String × List Entry)),
      x ∈ queuesEntries
        (es.foldl (fun qs e => addToGroup (extract_base_url e.url) e qs) acc)
      ↔ x ∈ queuesEntries acc ∨ x ∈ es := by
    intro es
    induction es with
    | nil => intro acc; simp
    | cons e rest ih =>
      intro acc
      rw [List.foldl_cons, ih, mem_addToGroup, List.mem_cons]
      tauto
  unfold buildQueues
  rw [key (flatEntries apis) []]
  simp [queuesEntries]

/-- Every probe entry's name is a registry key. -/
theorem flatEntries_name_mem (apis : Registry) (e : Entry)
    (he : e ∈ flatEntries apis) : e.apiName ∈ apis.map Prod.fst := by
  unfold flatEntries at he
  rw [List.mem_flatMap] at he
  obtain ⟨kv, hkv, hm⟩ := he
  rw [List.mem_map] at hm
  obtain ⟨u, _, rfl⟩ := hm
  exact List.mem_map.mpr ⟨kv, hkv, rfl⟩

/-- A two-origin registry: endpoint `a` with three URLs on origin `s1`,
endpoint `b` with one URL on origin `s2`. -/
def apisProbe : Registry :=
  [("a", { keyword := Option.some (.list ["a"]),
           url := Option.some (.list
             ["http://s1/a1", "http://s1/a2", "http://s1/a3"]) }),
   ("b", { keyword := Option.some (.list ["b"]),
           url := Option.some (.str "http://s2/b1") })]

/-- An environment where only `http://s2/b1` is reachable. -/
def envProbe : String → Option Params → RespResult := fun u _ =>
  if u = "http://s2/b1" then
    .ok { contentType := "", jsonBody := .none, textBody := "", rawBody := [] }
  else .fail "down"

/-- C6: `batch_test_apis` pops one entry from every non-empty origin queue
per round until all queues are empty, so it runs exactly `maxQ` rounds — the
length of the longest origin queue; an endpoint is classified available
exactly when one of its probe entries succeeds in some round; and a success
flag never reverts to false once set.  The hypotheses mirror Python: registry
keys are unique (dict) and every definition carries a `url` field (the source
indexes `api_data["url"]`). -/
theorem batch_test_rounds_and_flags (env : String → Option Params → RespResult)
    (apis : Registry)
    (hnd : (apis.map Prod.fst).Nodup)
    (_hurl : ∀ kv ∈ apis, ((kv : String × RawApi).2.url).isSome = true) :
    (batch_test_apis env apis).2 = maxQ (buildQueues apis)
    ∧ (∀ name, name ∈ (batch_test_apis env apis).1.1
        ↔ ∃ e ∈ flatEntries apis, e.apiName = name ∧ probeOk env e = true)
    ∧ (∀ (fuel : Nat) (queues : List (String × List Entry))
        (flags : List (String × Bool)) (nm : String),
        flagVal flags nm = true →
        flagVal ((probeRoundsAux env fuel queues flags).1) nm = true) := by
  refine ⟨?_, ?_, probeRoundsAux_mono env⟩
  · simp only [batch_test_apis]
    exact probeRoundsAux_count env _ _ _ le_rfl
  · intro name
    simp only [batch_test_apis]
    have hkeys0 : ((apis.map (fun kv => (kv.1, false))).map Prod.fst)
        = apis.map Prod.fst := by
      rw [List.map_map]
      rfl
    have hsub : ∀ e ∈ queuesEntries (buildQueues apis),
        e.apiName ∈ (apis.map (fun kv => (kv.1, false))).map Prod.fst := by
      intro e he
      rw [hkeys0]
      exact flatEntries_name_mem apis e ((mem_buildQueues_entries apis e).mp he)
    have hkeysF := probeRoundsAux_keys env (sumLen (buildQueues apis))
      (buildQueues apis) (apis.map (fun kv => (kv.1, false))) hsub
    have hndF : (((probeRoundsAux env (sumLen (buildQueues apis))
        (buildQueues apis)
        (apis.map (fun kv => (kv.1, false)))).1).map Prod.fst).Nodup := by
      rw [hkeysF, hkeys0]
      exact hnd
    rw [mem_filterMap_true _ name hndF]
    rw [probeRoundsAux_flag env (sumLen (buildQueues apis)) (buildQueues apis)
      (apis.map (fun kv => (kv.1, false))) name le_rfl]
    rw [flagVal_init]
    simp only [Bool.false_or]
    rw [List.any_eq_true]
    constructor
    · rintro ⟨e, he, hpe⟩
      rw [Bool.and_eq_true, beq_iff_eq] at hpe
      exact ⟨e, (mem_buildQueues_entries apis e).mp he, hpe.1, hpe.2⟩
    · rintro ⟨e, he, hn, hp⟩
      refine ⟨e, (mem_buildQueues_entries apis e).mpr he, ?_⟩
      rw [Bool.and_eq_true, beq_iff_eq]
      exact ⟨hn, hp⟩

/-- Witness for C6: with origins of 3 and 1 URLs the loop runs
`max(3,1) = 3` rounds, and endpoint `b` — whose single URL succeeds — is
classified available. -/
theorem batch_test_rounds_and_flags_witness :
    (batch_test_apis envProbe apisProbe).2 = 3
    ∧ "b" ∈ (batch_test_apis envProbe apisProbe).1.1 := by
  have h := batch_test_rounds_and_flags envProbe apisProbe (by decide) (by decide)
  constructor
  · rw [h.1]
    rfl
  · exact (h.2.1 "b").mpr
      ⟨{ apiName := "b", url := "http://s2/b1", params := [] },
       by decide, rfl, rfl⟩
